import Mathlib

/-!
Verification of the arc-length continuation driver with hierarchical,
error-driven refinement from
`src/extensions/gsXBraid/examples/serial_KLShell_Roof.cpp` (function `main`,
lines 336-543).

The nonlinear stepper `gsArcLengthIterator` lives outside this repository;
each call to `arcLength.step()` is modelled by an oracle giving the converged
point `(solutionU(), solutionL())` of that call, or `none` when the step does
not converge (in the source `!converged()` triggers `GISMO_ERROR`, which
aborts the run).  Vector norms are abstracted by a function `normV`; scalars
(`real_t`) form a linear ordered field.

`std::vector` out-of-range accesses (`operator[]` past the end, which is
undefined behaviour, and `.at`, which throws) are both modelled as a
`Fault.outOfBounds` abort carrying the state reached so far; the partial
results stored up to the fault stay inspectable, as in the source, where an
exception unwinds but the containers were already filled.
-/

namespace KLShellRoof

/-- One equilibrium point `(state, load factor)`, the
`std::pair<gsVector<real_t>,real_t>` of the source. -/
structure SolutionPoint (V K : Type) where
  U : V
  lam : K
deriving DecidableEq, Repr

/-- One entry of `refIdx` (source line 361):
`level` to compute on, level of the start point, index of the start point. -/
structure RefTask where
  level : Nat
  reflevel : Nat
  pindex : Nat
deriving DecidableEq, Repr

/-- How a run aborts: `diverged` models `GISMO_ERROR` (lines 385, 431, 525)
raised when `!arcLength.converged()`; `outOfBounds` models an out-of-range
`std::vector` access. -/
inductive Fault where
  | diverged
  | outOfBounds
deriving DecidableEq, Repr

/-- The mutable containers of `main`: `solutions` (per-level point lists),
`errors` (per-level error rows), `refIdx` (the refinement work queue), plus a
counter of `arcLength.step()` calls made so far (the oracle index). -/
structure RunState (V K : Type) where
  solutions : List (List (SolutionPoint V K))
  errors : List (List K)
  refIdx : List RefTask
  stepCount : Nat
deriving DecidableEq, Repr

/-- The external stepper: the value of the `n`-th `arcLength.step()` call,
`none` when that call does not converge. -/
abbrev Oracle (V K : Type) := Nat → Option (SolutionPoint V K)

/-- The run parameters: the vector norm, the reference force vector `Force`
(line 299), the initial arc length `dL` (line 347), the refinement tolerance
`ptol` (line 392), the level-0 step count `step` (line 41) and `maxLevel`
(line 58). -/
structure Cfg (V K : Type) where
  normV : V → K
  Force : V
  dL : K
  ptol : K
  step0 : Nat
  maxLevel : Nat

variable {V K : Type} [Zero V] [Sub V] [LinearOrderedField K]

/-- The reference point `(U0, L0) = (0, 0)` (lines 339-341). -/
def refPt : SolutionPoint V K := ⟨0, 0⟩

/-- The error of one refined interval (lines 437 and 534):
`( |λ_c − λ_f| * ||Force|| + ||U_c − U_f|| ) / dLi`, where `coarse` is the
coarse endpoint and `(Uf, lamf)` the result of the second fine step. -/
def computeError (normV : V → K) (Force : V) (coarse : SolutionPoint V K)
    (Uf : V) (lamf : K) (dLi : K) : K :=
  (|coarse.lam - lamf| * normV Force + normV (coarse.U - Uf)) / dLi

/-- Extract the state from a run result; a fault carries the state reached
when the run aborted. -/
def stateOf (r : Except (Fault × RunState V K) (RunState V K)) : RunState V K :=
  match r with
  | .ok st => st
  | .error e => e.2

/-- The fault of a run result, if any. -/
def faultOf (r : Except (Fault × RunState V K) (RunState V K)) : Option Fault :=
  match r with
  | .ok _ => none
  | .error e => some e.1

/-- Extract the state from a single-step result (which also carries the
stepped point on success). -/
def stateOf2 (r : Except (Fault × RunState V K) (SolutionPoint V K × RunState V K)) :
    RunState V K :=
  match r with
  | .ok p => p.2
  | .error e => e.2

/-- `solutions[lvl].push_back(pt)`; faults when level `lvl` does not exist
(`operator[]` out of range). -/
def pushAt (lvl : Nat) (pt : SolutionPoint V K) (st : RunState V K) :
    Except (Fault × RunState V K) (RunState V K) :=
  if lvl < st.solutions.length then
    .ok { st with solutions := st.solutions.set lvl (st.solutions.getD lvl [] ++ [pt]) }
  else .error (.outOfBounds, st)

/-- `errors[l].at(i) = e`; faults when either index is out of range. -/
def setErrAt (l i : Nat) (e : K) (st : RunState V K) :
    Except (Fault × RunState V K) (RunState V K) :=
  match st.errors[l]? with
  | none => .error (.outOfBounds, st)
  | some row =>
    if i < row.length then .ok { st with errors := st.errors.set l (row.set i e) }
    else .error (.outOfBounds, st)

/-- `solutions[l].at(i)`, as an optional read. -/
def readPt (st : RunState V K) (l i : Nat) : Option (SolutionPoint V K) :=
  st.solutions[l]?.bind fun lv => lv[i]?

/-- `std::vector<real_t>::resize(n)` (line 397): grow with zeroes or shrink. -/
def resizeRow (row : List K) (n : Nat) : List K :=
  if n ≤ row.length then row.take n else row ++ List.replicate (n - row.length) 0

/-- One `arcLength.step()` of the level-0 loop or the level loop
(lines 381-388, 427-434): step, check `converged()` (`GISMO_ERROR` aborts with
the containers untouched), then push `(solutionU(), solutionL())` onto
`solutions[lvl]`.  Returns the stepped point together with the new state. -/
def tryStep (oracle : Oracle V K) (lvl : Nat) (st : RunState V K) :
    Except (Fault × RunState V K) (SolutionPoint V K × RunState V K) :=
  match oracle st.stepCount with
  | none => .error (.diverged, st)
  | some pt =>
    match pushAt lvl pt { st with stepCount := st.stepCount + 1 } with
    | .error e => .error e
    | .ok st' => .ok (pt, st')

/-- One `arcLength.step()` of the queue loop (lines 521-530): like `tryStep`
on `solutions[pushLvl]`, followed by the bookkeeping access of line 530,
`solutions[pushLvl].at(solutions.size()-1)`, which throws when
`solutions.size()-1` is not a valid index of the just-extended level. -/
def qStep (oracle : Oracle V K) (pushLvl : Nat) (st : RunState V K) :
    Except (Fault × RunState V K) (SolutionPoint V K × RunState V K) :=
  match oracle st.stepCount with
  | none => .error (.diverged, st)
  | some pt =>
    match pushAt pushLvl pt { st with stepCount := st.stepCount + 1 } with
    | .error e => .error e
    | .ok st' =>
      if st'.solutions.length - 1 < (st'.solutions.getD pushLvl []).length
      then .ok (pt, st') else .error (.outOfBounds, st')

/-- The level-0 stepping loop (lines 377-389): `n` consecutive steps pushed
onto `solutions[lvl]`. -/
def iterSteps (oracle : Oracle V K) (lvl : Nat) :
    Nat → RunState V K → Except (Fault × RunState V K) (RunState V K)
  | 0, st => .ok st
  | n + 1, st =>
    match tryStep oracle lvl st with
    | .error e => .error e
    | .ok (_, st') => iterSteps oracle lvl n st'

/-- One interval `[p, p+1]` of level `lvl-1` refined at level `lvl`
(lines 412-447 of the level loop): restore the start point, seed the guess
with the coarse endpoint, run two steps onto `solutions[lvl]`, store the
error at `errors[lvl-1][p]`, and when it exceeds `ptol` push the two new
refinement tasks (lines 443-444). -/
def processInterval (cfg : Cfg V K) (oracle : Oracle V K) (lvl p : Nat)
    (st : RunState V K) : Except (Fault × RunState V K) (RunState V K) :=
  match readPt st (lvl - 1) p with                  -- line 414: setSolution
  | none => .error (.outOfBounds, st)
  | some _start =>
  match readPt st (lvl - 1) (p + 1) with            -- line 420: setInitialGuess
  | none => .error (.outOfBounds, st)
  | some _guess =>
  match tryStep oracle lvl st with                  -- lines 423-435, k = 0
  | .error e => .error e
  | .ok (_, st1) =>
  match tryStep oracle lvl st1 with                 -- lines 423-435, k = 1
  | .error e => .error e
  | .ok (pt2, st2) =>
  match readPt st2 (lvl - 1) (p + 1) with           -- line 437, coarse endpoint
  | none => .error (.outOfBounds, st2)
  | some coarse =>
    let dLi := cfg.dL / 2 ^ lvl
    let err := computeError cfg.normV cfg.Force coarse pt2.U pt2.lam dLi
    match setErrAt (lvl - 1) p err st2 with         -- line 437, store
    | .error e => .error e
    | .ok st3 =>
      if cfg.ptol < err then                        -- lines 440-447
        .ok { st3 with refIdx := st3.refIdx ++
          [⟨lvl + 1, lvl - 1, p⟩,
           ⟨lvl + 1, lvl, (st3.solutions.getD lvl []).length - 2⟩] }
      else .ok st3

/-- The `p` loop of the level loop (line 411). -/
def intervalLoop (cfg : Cfg V K) (oracle : Oracle V K) (lvl : Nat) :
    List Nat → RunState V K → Except (Fault × RunState V K) (RunState V K)
  | [], st => .ok st
  | p :: ps, st =>
    match processInterval cfg oracle lvl p st with
    | .error e => .error e
    | .ok st' => intervalLoop cfg oracle lvl ps st'

/-- One iteration of the level loop (lines 394-462): resize
`errors[lvl-1]` to `solutions[lvl-1].size()`, push the reference point onto
`solutions[lvl]`, process every interval of level `lvl-1`, then
`solutions.push_back(stepSolutions)` with `stepSolutions` the (always empty)
vector of line 372. -/
def doLevel (cfg : Cfg V K) (oracle : Oracle V K) (lvl : Nat)
    (st : RunState V K) : Except (Fault × RunState V K) (RunState V K) :=
  match st.errors.get? (lvl - 1), st.solutions.get? (lvl - 1) with
  | some row, some src =>
    let st0 := { st with errors := st.errors.set (lvl - 1) (resizeRow row src.length) }
    match pushAt lvl refPt st0 with                 -- line 400
    | .error e => .error e
    | .ok st1 =>
      match intervalLoop cfg oracle lvl (List.range (src.length - 1)) st1 with
      | .error e => .error e
      | .ok st2 => .ok { st2 with solutions := st2.solutions ++ [[]] }  -- line 461
  | _, _ => .error (.outOfBounds, st)

/-- The level loop over levels `1 .. maxLevel` (line 394). -/
def levelLoop (cfg : Cfg V K) (oracle : Oracle V K) :
    List Nat → RunState V K → Except (Fault × RunState V K) (RunState V K)
  | [], st => .ok st
  | l :: ls, st =>
    match doLevel cfg oracle l st with
    | .error e => .error e
    | .ok st' => levelLoop cfg oracle ls st'

/-- The initial containers (lines 358-362): `maxLevel+1` empty levels,
`maxLevel` empty error rows, an empty queue. -/
def initSt (cfg : Cfg V K) : RunState V K :=
  { solutions := List.replicate (cfg.maxLevel + 1) []
    errors := List.replicate cfg.maxLevel []
    refIdx := []
    stepCount := 0 }

/-- Level 0 (lines 364-389): push the reference point, then `step0` uniform
steps of length `dL`. -/
def level0 (cfg : Cfg V K) (oracle : Oracle V K) :
    Except (Fault × RunState V K) (RunState V K) :=
  match pushAt 0 refPt (initSt cfg) with            -- line 374
  | .error e => .error e
  | .ok st => iterSteps oracle 0 cfg.step0 st

/-- Level 0 followed by the level loop: the state reaching line 470. -/
def afterLevels (cfg : Cfg V K) (oracle : Oracle V K) :
    Except (Fault × RunState V K) (RunState V K) :=
  match level0 cfg oracle with
  | .error e => .error e
  | .ok st => levelLoop cfg oracle (List.range' 1 cfg.maxLevel) st

/-- Lines 488-492 of the queue loop:
`if (solutions.size()-1 < level) solutions.resize(level+1)`. -/
def growSolutions (t : RefTask) (st : RunState V K) : RunState V K :=
  if st.solutions.length - 1 < t.level
  then { st with solutions :=
          st.solutions ++ List.replicate (t.level + 1 - st.solutions.length) [] }
  else st

/-- Lines 495-499: `if (errors.size()-1 < level-1) errors.resize(level)`;
the `size_t` condition is written here for the reachable case
`errors.size() ≥ 1`, `level ≥ 1`, which holds for every enqueued task. -/
def growErrors (t : RefTask) (st : RunState V K) : RunState V K :=
  if st.errors.length - 1 < t.level - 1
  then { st with errors :=
          st.errors ++ List.replicate (t.level - st.errors.length) [] }
  else st

/-- Processing of one popped `RefTask` (lines 487-543).  Respecting the
source order: lazily grow `solutions` through `level` and `errors` through
`level-1`, read the start point `solutions[reflevel].at(pindex)`, push it
onto `solutions[level+1]` (line 507), read the guess
`solutions[reflevel].at(pindex+1)` (line 510), run two queue steps onto
`solutions[level+1]` with `dLi = dL / 2^level` (lines 514-531), then store
the interval error into `errors[level].at(pindex)` comparing against
`solutions[level].at(pindex+1)` (line 534).  The re-enqueueing of finer
tasks under `if (error > ptol)` is commented out in the source
(lines 537-541), so no task is ever added here. -/
def processTask (cfg : Cfg V K) (oracle : Oracle V K) (t : RefTask)
    (st : RunState V K) : Except (Fault × RunState V K) (RunState V K) :=
  let stB := growErrors t (growSolutions t st)
  match readPt stB t.reflevel t.pindex with         -- line 502
  | none => .error (.outOfBounds, stB)
  | some start =>
  match pushAt (t.level + 1) start stB with         -- line 507
  | .error e => .error e
  | .ok st1 =>
  match readPt st1 t.reflevel (t.pindex + 1) with   -- line 510
  | none => .error (.outOfBounds, st1)
  | some _guess =>
  match qStep oracle (t.level + 1) st1 with         -- lines 517-531, k = 0
  | .error e => .error e
  | .ok (_, st2) =>
  match qStep oracle (t.level + 1) st2 with         -- lines 517-531, k = 1
  | .error e => .error e
  | .ok (pt2, st3) =>
  match readPt st3 t.level (t.pindex + 1) with      -- line 534, coarse read
  | none => .error (.outOfBounds, st3)
  | some coarse =>
    let dLi := cfg.dL / 2 ^ t.level                 -- line 514
    let err := computeError cfg.normV cfg.Force coarse pt2.U pt2.lam dLi
    match setErrAt t.level t.pindex err st3 with    -- line 534, store
    | .error e => .error e
    | .ok st4 => .ok st4                            -- lines 537-541: no enqueue

/-- The queue loop (lines 472-543), with an explicit fuel (the loop runs
while `refIdx` is nonempty; since `processTask` never enqueues, a fuel of
the initial queue length suffices).  Also counts the iterations executed. -/
def drainQueue (cfg : Cfg V K) (oracle : Oracle V K) :
    Nat → RunState V K →
    (Except (Fault × RunState V K) (RunState V K)) × Nat
  | 0, st => (.ok st, 0)
  | fuel + 1, st =>
    match st.refIdx with
    | [] => (.ok st, 0)
    | t :: rest =>
      match processTask cfg oracle t { st with refIdx := rest } with
      | .ok st' =>
        let r := drainQueue cfg oracle fuel st'
        (r.1, r.2 + 1)
      | .error e => (.error e, 1)

/-- The whole run of `main`: level 0, the level loop, then the queue loop. -/
def runAll (cfg : Cfg V K) (oracle : Oracle V K) :
    Except (Fault × RunState V K) (RunState V K) :=
  match afterLevels cfg oracle with
  | .error e => .error e
  | .ok st => (drainQueue cfg oracle st.refIdx.length st).1

/-! ### Concrete runs over `ℚ` (state vectors one-dimensional, norm `|·|`)

`runA`: `dL = 1/2`, `ptol = 1/20`, `step0 = 1`, `maxLevel = 4`.  The oracle
follows the straight path `(U, λ) = (s, s)` except that the second fine step
of level 1 overshoots by `1/50`, flagging the single level-0 interval; the
queue then holds `[(2,0,0), (2,1,1)]` and both tasks run to completion.

`runB`: `dL = 1/2`, `ptol = 1/20`, `step0 = 1`, `maxLevel = 2`.  Only the
second interval of level 1 (processed at level 2) is flagged; the first
popped task `(3,1,1)` pushes its start point `(1/2, 1/2)` onto the empty
spare level 4 and then faults out of bounds at line 530. -/

/-- The step results of `runA`, by call index. -/
def callsA : List (ℚ × ℚ) :=
  [(1/2, 1/2),
   (1/4, 1/4), (13/25, 1/2),
   (1/4, 1/4), (1/4, 1/4), (13/25, 1/2), (13/25, 1/2),
   (1/4, 1/4), (1/4, 1/4), (1/4, 1/4), (1/4, 1/4),
   (13/25, 1/2), (13/25, 1/2), (13/25, 1/2), (13/25, 1/2),
   (1/4, 1/4), (1/4, 1/4), (1/4, 1/4), (1/4, 1/4),
   (1/4, 1/4), (1/4, 1/4), (1/4, 1/4), (1/4, 1/4),
   (13/25, 1/2), (13/25, 1/2), (13/25, 1/2), (13/25, 1/2),
   (13/25, 1/2), (13/25, 1/2), (13/25, 1/2), (13/25, 1/2),
   (1/16, 1/16), (29/200, 1/8),
   (3/8, 3/8), (1/4, 1/4)]

def oracleA : Oracle ℚ ℚ := fun n => (callsA.get? n).map fun p => ⟨p.1, p.2⟩

def cfgA : Cfg ℚ ℚ :=
  { normV := fun q => |q|, Force := 1, dL := 1/2, ptol := 1/20,
    step0 := 1, maxLevel := 4 }

/-- The state of `runA` at line 470, just before the queue loop. -/
def stMidA : RunState ℚ ℚ := stateOf (afterLevels cfgA oracleA)

/-- The state of `runA` right after popping the first task `(2,0,0)`. -/
def stPopA : RunState ℚ ℚ := { stMidA with refIdx := stMidA.refIdx.drop 1 }

/-- The step results of `runB`, by call index. -/
def callsB : List (ℚ × ℚ) :=
  [(1/2, 1/2),
   (1/2, 1/2), (1/2, 1/2),
   (1/2, 1/2), (1/2, 1/2), (1/2, 1/2), (13/25, 1/2),
   (9/16, 9/16)]

def oracleB : Oracle ℚ ℚ := fun n => (callsB.get? n).map fun p => ⟨p.1, p.2⟩

def cfgB : Cfg ℚ ℚ :=
  { normV := fun q => |q|, Force := 1, dL := 1/2, ptol := 1/20,
    step0 := 1, maxLevel := 2 }

/-- A small state used to exercise `processInterval` on its own: level 0
holds the reference point and one stepped point, level 1 holds the reference
point, the level-0 error row has been resized to two entries. -/
def stI : RunState ℚ ℚ :=
  { solutions := [[refPt, ⟨1, 1⟩], [refPt]]
    errors := [[0, 0]]
    refIdx := []
    stepCount := 0 }

def oracleI : Oracle ℚ ℚ := fun _ => some ⟨2, 2⟩

def cfgI : Cfg ℚ ℚ :=
  { normV := fun q => |q|, Force := 1, dL := 2, ptol := 1/20,
    step0 := 0, maxLevel := 0 }

/-! ### Append-only growth and head invariants -/

/-- `t` extends `s` levelwise by appends only, and has at least as many
levels: once a point sits at `(level, index)` of `s`, it sits unchanged at
the same place in `t`. -/
def grows {α : Type} (s t : List (List α)) : Prop :=
  s.length ≤ t.length ∧ ∀ l, ∃ u, t.getD l [] = s.getD l [] ++ u

/-- Every level up to `m` is either still unpopulated or headed by the
reference point. -/
def headsOK (m : Nat) (sols : List (List (SolutionPoint V K))) : Prop :=
  ∀ l, l ≤ m → sols.getD l [] = [] ∨ (sols.getD l []).head? = some refPt

/-- Every level up to `m` is populated and headed by the reference point. -/
def headsAll (m : Nat) (sols : List (List (SolutionPoint V K))) : Prop :=
  ∀ l, l ≤ m → (sols.getD l []).head? = some refPt

/-! ### Basic lemmas about `grows` -/

theorem grows_rfl {α : Type} (s : List (List α)) : grows s s :=
  ⟨le_rfl, fun _ => ⟨[], (List.append_nil _).symm⟩⟩

theorem grows_trans {α : Type} {s t u : List (List α)}
    (h1 : grows s t) (h2 : grows t u) : grows s u := by
  refine ⟨h1.1.trans h2.1, fun l => ?_⟩
  obtain ⟨a, ha⟩ := h1.2 l
  obtain ⟨b, hb⟩ := h2.2 l
  exact ⟨a ++ b, by rw [hb, ha, List.append_assoc]⟩

theorem grows_set_append {α : Type} (s : List (List α)) (i : Nat) (u : List α) :
    grows s (s.set i (s.getD i [] ++ u)) := by
  by_cases hi : i < s.length
  · refine ⟨by simp, fun l => ?_⟩
    by_cases hl : l = i
    · subst hl
      exact ⟨u, by simp [List.getD_eq_getElem?_getD, List.getElem?_set_self hi]⟩
    · exact ⟨[], by
        simp [List.getD_eq_getElem?_getD,
          List.getElem?_set_ne (fun h => hl h.symm)]⟩
  · rw [List.set_eq_of_length_le (le_of_not_lt hi)]
    exact grows_rfl s

theorem grows_append_right {α : Type} (s t : List (List α)) : grows s (s ++ t) := by
  refine ⟨by simp, fun l => ?_⟩
  by_cases hl : l < s.length
  · exact ⟨[], by simp [List.getD_eq_getElem?_getD, List.getElem?_append_left hl]⟩
  · refine ⟨(s ++ t).getD l [], ?_⟩
    have h0 : s[l]? = none := List.getElem?_eq_none (le_of_not_lt hl)
    simp [List.getD_eq_getElem?_getD, h0]

/-- A populated level keeps its head under growth. -/
theorem grows_head {α : Type} {s t : List (List α)} (h : grows s t) {l : Nat}
    {a : α} (hne : (s.getD l []).head? = some a) : (t.getD l []).head? = some a := by
  obtain ⟨u, hu⟩ := h.2 l
  rw [hu]
  cases hls : s.getD l [] with
  | nil => rw [hls] at hne; cases hne
  | cons b bs => rw [hls] at hne; simpa using hne

/-! ### Anatomy of the primitive operations -/

theorem pushAt_ok {lvl : Nat} {pt : SolutionPoint V K} {st st' : RunState V K}
    (h : pushAt lvl pt st = .ok st') :
    lvl < st.solutions.length ∧
    st'.solutions = st.solutions.set lvl (st.solutions.getD lvl [] ++ [pt]) ∧
    st'.errors = st.errors ∧ st'.refIdx = st.refIdx ∧
    st'.stepCount = st.stepCount := by
  by_cases hl : lvl < st.solutions.length
  · rw [pushAt, if_pos hl] at h
    cases h
    exact ⟨hl, rfl, rfl, rfl, rfl⟩
  · rw [pushAt, if_neg hl] at h
    cases h

theorem pushAt_grows (lvl : Nat) (pt : SolutionPoint V K) (st : RunState V K) :
    grows st.solutions (stateOf (pushAt lvl pt st)).solutions := by
  by_cases h : lvl < st.solutions.length
  · simpa [pushAt, h, stateOf] using
      grows_set_append st.solutions lvl [pt]
  · simpa [pushAt, h, stateOf] using grows_rfl st.solutions

theorem setErrAt_ok {l i : Nat} {e : K} {st st' : RunState V K}
    (h : setErrAt l i e st = .ok st') :
    ∃ row, st.errors[l]? = some row ∧ i < row.length ∧
      st'.errors = st.errors.set l (row.set i e) ∧
      st'.solutions = st.solutions ∧ st'.refIdx = st.refIdx ∧
      st'.stepCount = st.stepCount := by
  unfold setErrAt at h
  split at h
  · cases h
  · rename_i row hr
    split at h
    · rename_i hi
      cases h
      exact ⟨row, hr, hi, rfl, rfl, rfl, rfl⟩
    · cases h

theorem setErrAt_solutions (l i : Nat) (e : K) (st : RunState V K) :
    (stateOf (setErrAt l i e st)).solutions = st.solutions := by
  unfold setErrAt
  split
  · rfl
  · split <;> rfl

/-- After a successful `setErrAt l i e`, reading back `errors[l][i]`
yields `e`. -/
theorem setErrAt_read {l i : Nat} {e : K} {st st' : RunState V K}
    (h : setErrAt l i e st = .ok st') :
    (st'.errors.getD l []).getD i 0 = e := by
  obtain ⟨row, hr, hi, he, -, -, -⟩ := setErrAt_ok h
  have hl : l < st.errors.length := by
    by_contra hc
    rw [List.getElem?_eq_none (le_of_not_lt hc)] at hr
    cases hr
  rw [he]
  simp [List.getD_eq_getElem?_getD, List.getElem?_set_self hl,
    List.getElem?_set_self hi]

theorem tryStep_ok {oracle : Oracle V K} {lvl : Nat} {st : RunState V K}
    {pt : SolutionPoint V K} {st' : RunState V K}
    (h : tryStep oracle lvl st = .ok (pt, st')) :
    oracle st.stepCount = some pt ∧ lvl < st.solutions.length ∧
    st'.solutions = st.solutions.set lvl (st.solutions.getD lvl [] ++ [pt]) ∧
    st'.errors = st.errors ∧ st'.refIdx = st.refIdx ∧
    st'.stepCount = st.stepCount + 1 := by
  unfold tryStep at h
  split at h
  · cases h
  · rename_i pt0 ho
    split at h
    · cases h
    · rename_i st1 hp
      cases h
      obtain ⟨hl, hs, he, hr, hc⟩ := pushAt_ok hp
      exact ⟨ho, hl, hs, he, hr, hc⟩

theorem tryStep_grows (oracle : Oracle V K) (lvl : Nat) (st : RunState V K) :
    grows st.solutions (stateOf2 (tryStep oracle lvl st)).solutions := by
  unfold tryStep
  cases ho : oracle st.stepCount with
  | none => exact grows_rfl _
  | some pt =>
    dsimp only
    have hg := pushAt_grows lvl pt { st with stepCount := st.stepCount + 1 }
    cases hp : pushAt lvl pt { st with stepCount := st.stepCount + 1 } with
    | ok st1 => rw [hp] at hg; exact hg
    | error e => rw [hp] at hg; exact hg

theorem qStep_ok {oracle : Oracle V K} {lvl : Nat} {st : RunState V K}
    {pt : SolutionPoint V K} {st' : RunState V K}
    (h : qStep oracle lvl st = .ok (pt, st')) :
    oracle st.stepCount = some pt ∧ lvl < st.solutions.length ∧
    st'.solutions = st.solutions.set lvl (st.solutions.getD lvl [] ++ [pt]) ∧
    st'.errors = st.errors ∧ st'.refIdx = st.refIdx ∧
    st'.stepCount = st.stepCount + 1 := by
  unfold qStep at h
  split at h
  · cases h
  · rename_i pt0 ho
    split at h
    · cases h
    · rename_i st1 hp
      split at h
      · cases h
        obtain ⟨hl, hs, he, hr, hc⟩ := pushAt_ok hp
        exact ⟨ho, hl, hs, he, hr, hc⟩
      · cases h

theorem qStep_grows (oracle : Oracle V K) (lvl : Nat) (st : RunState V K) :
    grows st.solutions (stateOf2 (qStep oracle lvl st)).solutions := by
  unfold qStep
  cases ho : oracle st.stepCount with
  | none => exact grows_rfl _
  | some pt =>
    dsimp only
    have hg := pushAt_grows lvl pt { st with stepCount := st.stepCount + 1 }
    cases hp : pushAt lvl pt { st with stepCount := st.stepCount + 1 } with
    | ok st1 =>
      rw [hp] at hg
      dsimp only
      split
      · exact hg
      · exact hg
    | error e => rw [hp] at hg; exact hg

/-! ### Growth of the composite phases -/

theorem processInterval_grows (cfg : Cfg V K) (oracle : Oracle V K)
    (lvl p : Nat) (st : RunState V K) :
    grows st.solutions (stateOf (processInterval cfg oracle lvl p st)).solutions := by
  unfold processInterval
  cases readPt st (lvl - 1) p with
  | none => exact grows_rfl _
  | some s0 =>
  dsimp only
  cases readPt st (lvl - 1) (p + 1) with
  | none => exact grows_rfl _
  | some g0 =>
  dsimp only
  cases h1 : tryStep oracle lvl st with
  | error e =>
    have hg := tryStep_grows oracle lvl st
    rw [h1] at hg; exact hg
  | ok pr1 =>
    obtain ⟨pt1, st1⟩ := pr1
    have g1 : grows st.solutions st1.solutions := by
      have hg := tryStep_grows oracle lvl st
      rw [h1] at hg; exact hg
    dsimp only
    cases h2 : tryStep oracle lvl st1 with
    | error e =>
      have hg := tryStep_grows oracle lvl st1
      rw [h2] at hg
      exact grows_trans g1 hg
    | ok pr2 =>
      obtain ⟨pt2, st2⟩ := pr2
      have g2 : grows st.solutions st2.solutions := by
        have hg := tryStep_grows oracle lvl st1
        rw [h2] at hg
        exact grows_trans g1 hg
      dsimp only
      cases readPt st2 (lvl - 1) (p + 1) with
      | none => exact g2
      | some coarse =>
      dsimp only
      cases h3 : setErrAt (lvl - 1) p
          (computeError cfg.normV cfg.Force coarse pt2.U pt2.lam (cfg.dL / 2 ^ lvl)) st2 with
      | error e =>
        have hs := setErrAt_solutions (lvl - 1) p
          (computeError cfg.normV cfg.Force coarse pt2.U pt2.lam (cfg.dL / 2 ^ lvl)) st2
        rw [h3] at hs
        dsimp only
        rw [show (stateOf (Except.error e : Except (Fault × RunState V K) (RunState V K))).solutions
             = st2.solutions from hs]
        exact g2
      | ok st3 =>
        have hs : st3.solutions = st2.solutions := by
          obtain ⟨row, -, -, -, h, -, -⟩ := setErrAt_ok h3
          exact h
        dsimp only
        split
        · rw [show ({ st3 with refIdx := st3.refIdx ++
              [⟨lvl + 1, lvl - 1, p⟩,
               ⟨lvl + 1, lvl, (st3.solutions.getD lvl []).length - 2⟩] } : RunState V K).solutions
              = st2.solutions from hs]
          exact g2
        · rw [show (stateOf (Except.ok st3 : Except (Fault × RunState V K) (RunState V K))).solutions
              = st2.solutions from hs]
          exact g2

theorem intervalLoop_grows (cfg : Cfg V K) (oracle : Oracle V K) (lvl : Nat) :
    ∀ (ps : List Nat) (st : RunState V K),
    grows st.solutions (stateOf (intervalLoop cfg oracle lvl ps st)).solutions := by
  intro ps
  induction ps with
  | nil => intro st; exact grows_rfl _
  | cons p ps ih =>
    intro st
    unfold intervalLoop
    cases hp : processInterval cfg oracle lvl p st with
    | error e =>
      have hg := processInterval_grows cfg oracle lvl p st
      rw [hp] at hg; exact hg
    | ok st' =>
      have h1 : grows st.solutions st'.solutions := by
        have hg := processInterval_grows cfg oracle lvl p st
        rw [hp] at hg; exact hg
      exact grows_trans h1 (ih st')

theorem doLevel_grows (cfg : Cfg V K) (oracle : Oracle V K) (lvl : Nat)
    (st : RunState V K) :
    grows st.solutions (stateOf (doLevel cfg oracle lvl st)).solutions := by
  unfold doLevel
  split
  · rename_i row src hrow hsrc
    dsimp only
    cases hp : pushAt lvl refPt
        { st with errors := st.errors.set (lvl - 1) (resizeRow row src.length) } with
    | error e =>
      have hg := pushAt_grows lvl refPt
        { st with errors := st.errors.set (lvl - 1) (resizeRow row src.length) }
      rw [hp] at hg; exact hg
    | ok st1 =>
      have g1 : grows st.solutions st1.solutions := by
        have hg := pushAt_grows lvl refPt
          { st with errors := st.errors.set (lvl - 1) (resizeRow row src.length) }
        rw [hp] at hg; exact hg
      dsimp only
      cases hil : intervalLoop cfg oracle lvl (List.range (src.length - 1)) st1 with
      | error e =>
        have hg := intervalLoop_grows cfg oracle lvl (List.range (src.length - 1)) st1
        rw [hil] at hg
        exact grows_trans g1 hg
      | ok st2 =>
        have g2 : grows st.solutions st2.solutions := by
          have hg := intervalLoop_grows cfg oracle lvl (List.range (src.length - 1)) st1
          rw [hil] at hg
          exact grows_trans g1 hg
        exact grows_trans g2 (grows_append_right st2.solutions [[]])
  · exact grows_rfl _

theorem levelLoop_grows (cfg : Cfg V K) (oracle : Oracle V K) :
    ∀ (ls : List Nat) (st : RunState V K),
    grows st.solutions (stateOf (levelLoop cfg oracle ls st)).solutions := by
  intro ls
  induction ls with
  | nil => intro st; exact grows_rfl _
  | cons l ls ih =>
    intro st
    unfold levelLoop
    cases hd : doLevel cfg oracle l st with
    | error e =>
      have hg := doLevel_grows cfg oracle l st
      rw [hd] at hg; exact hg
    | ok st' =>
      have h1 : grows st.solutions st'.solutions := by
        have hg := doLevel_grows cfg oracle l st
        rw [hd] at hg; exact hg
      exact grows_trans h1 (ih st')

theorem iterSteps_grows (oracle : Oracle V K) (lvl : Nat) :
    ∀ (n : Nat) (st : RunState V K),
    grows st.solutions (stateOf (iterSteps oracle lvl n st)).solutions := by
  intro n
  induction n with
  | zero => intro st; exact grows_rfl _
  | succ n ih =>
    intro st
    unfold iterSteps
    cases ht : tryStep oracle lvl st with
    | error e =>
      have hg := tryStep_grows oracle lvl st
      rw [ht] at hg; exact hg
    | ok pr =>
      obtain ⟨pt, st'⟩ := pr
      have h1 : grows st.solutions st'.solutions := by
        have hg := tryStep_grows oracle lvl st
        rw [ht] at hg; exact hg
      exact grows_trans h1 (ih st')

theorem growSolutions_parts (t : RefTask) (st : RunState V K) :
    grows st.solutions (growSolutions t st).solutions ∧
    (growSolutions t st).errors = st.errors ∧
    (growSolutions t st).refIdx = st.refIdx ∧
    (growSolutions t st).stepCount = st.stepCount := by
  unfold growSolutions
  split
  · exact ⟨grows_append_right _ _, rfl, rfl, rfl⟩
  · exact ⟨grows_rfl _, rfl, rfl, rfl⟩

theorem growErrors_parts (t : RefTask) (st : RunState V K) :
    (growErrors t st).solutions = st.solutions ∧
    (growErrors t st).refIdx = st.refIdx ∧
    (growErrors t st).stepCount = st.stepCount := by
  unfold growErrors
  split
  · exact ⟨rfl, rfl, rfl⟩
  · exact ⟨rfl, rfl, rfl⟩

theorem processTask_grows (cfg : Cfg V K) (oracle : Oracle V K) (t : RefTask)
    (st : RunState V K) :
    grows st.solutions (stateOf (processTask cfg oracle t st)).solutions := by
  have gAB : grows st.solutions (growErrors t (growSolutions t st)).solutions := by
    rw [(growErrors_parts t (growSolutions t st)).1]
    exact (growSolutions_parts t st).1
  unfold processTask
  dsimp only
  cases readPt (growErrors t (growSolutions t st)) t.reflevel t.pindex with
  | none => exact gAB
  | some start =>
  dsimp only
  cases hp : pushAt (t.level + 1) start (growErrors t (growSolutions t st)) with
  | error e =>
    have hg := pushAt_grows (t.level + 1) start (growErrors t (growSolutions t st))
    rw [hp] at hg
    exact grows_trans gAB hg
  | ok st1 =>
    have g1 : grows st.solutions st1.solutions := by
      have hg := pushAt_grows (t.level + 1) start (growErrors t (growSolutions t st))
      rw [hp] at hg
      exact grows_trans gAB hg
    dsimp only
    cases readPt st1 t.reflevel (t.pindex + 1) with
    | none => exact g1
    | some g0 =>
    dsimp only
    cases h1 : qStep oracle (t.level + 1) st1 with
    | error e =>
      have hg := qStep_grows oracle (t.level + 1) st1
      rw [h1] at hg
      exact grows_trans g1 hg
    | ok pr1 =>
      obtain ⟨pt1, st2⟩ := pr1
      have g2 : grows st.solutions st2.solutions := by
        have hg := qStep_grows oracle (t.level + 1) st1
        rw [h1] at hg
        exact grows_trans g1 hg
      dsimp only
      cases h2 : qStep oracle (t.level + 1) st2 with
      | error e =>
        have hg := qStep_grows oracle (t.level + 1) st2
        rw [h2] at hg
        exact grows_trans g2 hg
      | ok pr2 =>
        obtain ⟨pt2, st3⟩ := pr2
        have g3 : grows st.solutions st3.solutions := by
          have hg := qStep_grows oracle (t.level + 1) st2
          rw [h2] at hg
          exact grows_trans g2 hg
        dsimp only
        cases readPt st3 t.level (t.pindex + 1) with
        | none => exact g3
        | some coarse =>
        dsimp only
        cases h3 : setErrAt t.level t.pindex
            (computeError cfg.normV cfg.Force coarse pt2.U pt2.lam (cfg.dL / 2 ^ t.level)) st3 with
        | error e =>
          have hs := setErrAt_solutions t.level t.pindex
            (computeError cfg.normV cfg.Force coarse pt2.U pt2.lam (cfg.dL / 2 ^ t.level)) st3
          rw [h3] at hs
          dsimp only
          rw [show (stateOf (Except.error e : Except (Fault × RunState V K) (RunState V K))).solutions
               = st3.solutions from hs]
          exact g3
        | ok st4 =>
          have hs : st4.solutions = st3.solutions := by
            obtain ⟨row, -, -, -, h, -, -⟩ := setErrAt_ok h3
            exact h
          dsimp only
          rw [show (stateOf (Except.ok st4 : Except (Fault × RunState V K) (RunState V K))).solutions
               = st3.solutions from hs]
          exact g3

theorem drainQueue_grows (cfg : Cfg V K) (oracle : Oracle V K) :
    ∀ (fuel : Nat) (st : RunState V K),
    grows st.solutions (stateOf (drainQueue cfg oracle fuel st).1).solutions := by
  intro fuel
  induction fuel with
  | zero => intro st; exact grows_rfl _
  | succ fuel ih =>
    intro st
    unfold drainQueue
    cases st.refIdx with
    | nil => exact grows_rfl _
    | cons t rest =>
    dsimp only
    cases hp : processTask cfg oracle t { st with refIdx := rest } with
    | error e =>
      have hg := processTask_grows cfg oracle t { st with refIdx := rest }
      rw [hp] at hg; exact hg
    | ok st' =>
      have h1 : grows st.solutions st'.solutions := by
        have hg := processTask_grows cfg oracle t { st with refIdx := rest }
        rw [hp] at hg; exact hg
      exact grows_trans h1 (ih st')

/-! ### Error-path anatomy -/

theorem pushAt_err {lvl : Nat} {pt : SolutionPoint V K} {st : RunState V K}
    {e : Fault × RunState V K} (h : pushAt lvl pt st = .error e) :
    e = (Fault.outOfBounds, st) := by
  unfold pushAt at h
  split at h
  · cases h
  · cases h; rfl

theorem setErrAt_err {l i : Nat} {v : K} {st : RunState V K}
    {e : Fault × RunState V K} (h : setErrAt l i v st = .error e) :
    e = (Fault.outOfBounds, st) := by
  unfold setErrAt at h
  split at h
  · cases h; rfl
  · split at h
    · cases h
    · cases h; rfl

theorem tryStep_err {oracle : Oracle V K} {lvl : Nat} {st : RunState V K}
    {e : Fault × RunState V K} (h : tryStep oracle lvl st = .error e) :
    e.2.solutions = st.solutions ∧ e.2.errors = st.errors ∧
    e.2.refIdx = st.refIdx := by
  unfold tryStep at h
  split at h
  · cases h; exact ⟨rfl, rfl, rfl⟩
  · split at h
    · rename_i e0 hp
      cases h
      rw [pushAt_err hp]
      exact ⟨rfl, rfl, rfl⟩
    · cases h

theorem qStep_err {oracle : Oracle V K} {lvl : Nat} {st : RunState V K}
    {e : Fault × RunState V K} (h : qStep oracle lvl st = .error e) :
    e.2.refIdx = st.refIdx ∧ e.2.errors = st.errors := by
  unfold qStep at h
  split at h
  · cases h; exact ⟨rfl, rfl⟩
  · split at h
    · rename_i e0 hp
      cases h
      rw [pushAt_err hp]
      exact ⟨rfl, rfl⟩
    · split at h
      · cases h
      · rename_i st1 hp hc
        cases h
        obtain ⟨-, -, -, hr, -⟩ := pushAt_ok hp
        exact ⟨hr, (pushAt_ok hp).2.2.1⟩

/-! ### `refIdx` behaviour of the queue phase -/

theorem processTask_ok_parts {cfg : Cfg V K} {oracle : Oracle V K} {t : RefTask}
    {st st' : RunState V K} (h : processTask cfg oracle t st = .ok st') :
    st'.refIdx = st.refIdx := by
  have hB : (growErrors t (growSolutions t st)).refIdx = st.refIdx := by
    rw [(growErrors_parts t (growSolutions t st)).2.1, (growSolutions_parts t st).2.2.1]
  unfold processTask at h
  dsimp only at h
  split at h
  · cases h
  · rename_i start hstart
    split at h
    · cases h
    · rename_i st1 hp1
      have h1 : st1.refIdx = st.refIdx := by
        rw [(pushAt_ok hp1).2.2.2.1, hB]
      split at h
      · cases h
      · rename_i g0 hg0
        split at h
        · cases h
        · rename_i u2 st2 hq1
          have h2 : st2.refIdx = st.refIdx := by
            rw [(qStep_ok hq1).2.2.2.2.1, h1]
          split at h
          · cases h
          · rename_i pt2 st3 hq2
            have h3 : st3.refIdx = st.refIdx := by
              rw [(qStep_ok hq2).2.2.2.2.1, h2]
            split at h
            · cases h
            · rename_i coarse hcoarse
              split at h
              · cases h
              · rename_i st4 hset
                cases h
                rw [(setErrAt_ok hset).choose_spec.2.2.2.2.1, h3]

/-- Full anatomy of a successful `processInterval`: the stored error value
decides whether exactly the two tasks of lines 443-444 were appended to the
queue. -/
theorem processInterval_ok_parts {cfg : Cfg V K} {oracle : Oracle V K}
    {lvl p : Nat} {st st' : RunState V K}
    (h : processInterval cfg oracle lvl p st = .ok st') :
    (cfg.ptol < (st'.errors.getD (lvl - 1) []).getD p 0 →
      st'.refIdx = st.refIdx ++
        [⟨lvl + 1, lvl - 1, p⟩,
         ⟨lvl + 1, lvl, (st'.solutions.getD lvl []).length - 2⟩]) ∧
    (¬ cfg.ptol < (st'.errors.getD (lvl - 1) []).getD p 0 →
      st'.refIdx = st.refIdx) := by
  unfold processInterval at h
  split at h
  · cases h
  · rename_i s0 hs0
    split at h
    · cases h
    · rename_i g0 hg0
      split at h
      · cases h
      · rename_i u1 st1 ht1
        have h1 : st1.refIdx = st.refIdx := (tryStep_ok ht1).2.2.2.2.1
        split at h
        · cases h
        · rename_i pt2 st2 ht2
          have h2 : st2.refIdx = st.refIdx := by
            rw [(tryStep_ok ht2).2.2.2.2.1, h1]
          split at h
          · cases h
          · rename_i coarse hcoarse
            dsimp only at h
            split at h
            · cases h
            · rename_i st3 hset
              have h3 : st3.refIdx = st.refIdx := by
                rw [(setErrAt_ok hset).choose_spec.2.2.2.2.1, h2]
              have hread := setErrAt_read hset
              have hsol : st3.solutions = st2.solutions :=
                (setErrAt_ok hset).choose_spec.2.2.2.1
              split at h
              · rename_i hgt
                cases h
                dsimp only
                constructor
                · intro _
                  rw [h3]
                · intro hno
                  exact absurd (by rw [hread]; exact hgt) hno
              · rename_i hle
                cases h
                constructor
                · intro hyes
                  rw [hread] at hyes
                  exact absurd hyes hle
                · intro _
                  exact h3

/-! ### Head invariants: the reference point at the head of levels -/

theorem grows_headsAll {m : Nat} {s t : List (List (SolutionPoint V K))}
    (h : headsAll m s) (hg : grows s t) : headsAll m t :=
  fun l hl => grows_head hg (h l hl)

theorem headsOK_set_push {m : Nat} {s : List (List (SolutionPoint V K))}
    (h : headsOK m s) (lvl : Nat) (pt : SolutionPoint V K)
    (hpt : pt = refPt ∨ s.getD lvl [] ≠ []) :
    headsOK m (s.set lvl (s.getD lvl [] ++ [pt])) := by
  intro l hl
  by_cases hll : l = lvl
  · subst hll
    by_cases hlen : l < s.length
    · rw [List.getD_eq_getElem?_getD, List.getElem?_set_self hlen,
        Option.getD_some]
      right
      cases hE : s.getD l [] with
      | nil =>
        rcases hpt with hp | hp
        · subst hp; simp
        · exact absurd hE hp
      | cons a as =>
        rcases h l hl with h0 | h0
        · rw [hE] at h0; cases h0
        · rw [hE] at h0
          simpa using h0
    · rw [List.set_eq_of_length_le (le_of_not_lt hlen)]
      exact h l hl
  · simp only [List.getD_eq_getElem?_getD,
      List.getElem?_set_ne (fun hq => hll hq.symm)]
    simpa only [List.getD_eq_getElem?_getD] using h l hl

theorem headsOK_append {m : Nat} {s : List (List (SolutionPoint V K))}
    (h : headsOK m s) (ts : List (List (SolutionPoint V K)))
    (hts : ∀ x ∈ ts, x = []) : headsOK m (s ++ ts) := by
  intro l hl
  by_cases hlen : l < s.length
  · simp only [List.getD_eq_getElem?_getD, List.getElem?_append_left hlen]
    simpa only [List.getD_eq_getElem?_getD] using h l hl
  · left
    rw [List.getD_eq_getElem?_getD,
      List.getElem?_append_right (le_of_not_lt hlen)]
    cases ht : ts[l - s.length]? with
    | none => rfl
    | some x =>
      have hx : x ∈ ts := by
        have := List.getElem?_eq_some_iff.mp ht
        obtain ⟨hlt, hval⟩ := this
        exact hval ▸ List.getElem_mem hlt
      rw [hts x hx]
      rfl

theorem tryStep_headsOK {m : Nat} (oracle : Oracle V K) (lvl : Nat)
    {st : RunState V K} (h : headsOK m st.solutions)
    (hne : st.solutions.getD lvl [] ≠ []) :
    headsOK m (stateOf2 (tryStep oracle lvl st)).solutions ∧
    (stateOf2 (tryStep oracle lvl st)).solutions.getD lvl [] ≠ [] := by
  unfold tryStep
  cases ho : oracle st.stepCount with
  | none => exact ⟨h, hne⟩
  | some pt =>
    dsimp only
    cases hp : pushAt lvl pt { st with stepCount := st.stepCount + 1 } with
    | error e =>
      have he := pushAt_err hp
      subst he
      exact ⟨h, hne⟩
    | ok st1 =>
      obtain ⟨hl, hs, -, -, -⟩ := pushAt_ok hp
      have hs' : st1.solutions
          = st.solutions.set lvl (st.solutions.getD lvl [] ++ [pt]) := hs
      have hl' : lvl < st.solutions.length := hl
      constructor
      · rw [show (stateOf2 (Except.ok (pt, st1) :
            Except (Fault × RunState V K) (SolutionPoint V K × RunState V K))).solutions
            = st.solutions.set lvl (st.solutions.getD lvl [] ++ [pt]) from hs']
        exact headsOK_set_push h lvl pt (Or.inr hne)
      · rw [show (stateOf2 (Except.ok (pt, st1) :
            Except (Fault × RunState V K) (SolutionPoint V K × RunState V K))).solutions
            = st.solutions.set lvl (st.solutions.getD lvl [] ++ [pt]) from hs']
        rw [List.getD_eq_getElem?_getD, List.getElem?_set_self hl',
          Option.getD_some]
        simp

theorem processInterval_headsOK {m : Nat} (cfg : Cfg V K) (oracle : Oracle V K)
    (lvl p : Nat) {st : RunState V K} (h : headsOK m st.solutions)
    (hne : st.solutions.getD lvl [] ≠ []) :
    headsOK m (stateOf (processInterval cfg oracle lvl p st)).solutions ∧
    (stateOf (processInterval cfg oracle lvl p st)).solutions.getD lvl [] ≠ [] := by
  unfold processInterval
  cases readPt st (lvl - 1) p with
  | none => exact ⟨h, hne⟩
  | some s0 =>
  dsimp only
  cases readPt st (lvl - 1) (p + 1) with
  | none => exact ⟨h, hne⟩
  | some g0 =>
  dsimp only
  have H1 := tryStep_headsOK (m := m) oracle lvl h hne
  cases h1 : tryStep oracle lvl st with
  | error e => rw [h1] at H1; exact H1
  | ok pr1 =>
    rw [h1] at H1
    obtain ⟨pt1, st1⟩ := pr1
    have H2 := @tryStep_headsOK V K _ _ _ m oracle lvl st1 H1.1 H1.2
    dsimp only
    cases h2 : tryStep oracle lvl st1 with
    | error e => rw [h2] at H2; exact H2
    | ok pr2 =>
      rw [h2] at H2
      obtain ⟨pt2, st2⟩ := pr2
      dsimp only
      cases readPt st2 (lvl - 1) (p + 1) with
      | none => exact H2
      | some coarse =>
      dsimp only
      cases h3 : setErrAt (lvl - 1) p
          (computeError cfg.normV cfg.Force coarse pt2.U pt2.lam (cfg.dL / 2 ^ lvl)) st2 with
      | error e =>
        have hs := setErrAt_solutions (lvl - 1) p
          (computeError cfg.normV cfg.Force coarse pt2.U pt2.lam (cfg.dL / 2 ^ lvl)) st2
        rw [h3] at hs
        dsimp only
        constructor
        · rw [show (stateOf (Except.error e :
              Except (Fault × RunState V K) (RunState V K))).solutions
              = st2.solutions from hs]
          exact H2.1
        · rw [show (stateOf (Except.error e :
              Except (Fault × RunState V K) (RunState V K))).solutions
              = st2.solutions from hs]
          exact H2.2
      | ok st3 =>
        have hs : st3.solutions = st2.solutions :=
          (setErrAt_ok h3).choose_spec.2.2.2.1
        dsimp only
        split
        · exact ⟨by rw [show ({ st3 with refIdx := st3.refIdx ++
              [⟨lvl + 1, lvl - 1, p⟩,
               ⟨lvl + 1, lvl, (st3.solutions.getD lvl []).length - 2⟩] } :
               RunState V K).solutions = st2.solutions from hs]; exact H2.1,
            by rw [show ({ st3 with refIdx := st3.refIdx ++
              [⟨lvl + 1, lvl - 1, p⟩,
               ⟨lvl + 1, lvl, (st3.solutions.getD lvl []).length - 2⟩] } :
               RunState V K).solutions = st2.solutions from hs]; exact H2.2⟩
        · exact ⟨by rw [show (stateOf (Except.ok st3 :
              Except (Fault × RunState V K) (RunState V K))).solutions
              = st2.solutions from hs]; exact H2.1,
            by rw [show (stateOf (Except.ok st3 :
              Except (Fault × RunState V K) (RunState V K))).solutions
              = st2.solutions from hs]; exact H2.2⟩

theorem intervalLoop_headsOK {m : Nat} (cfg : Cfg V K) (oracle : Oracle V K)
    (lvl : Nat) : ∀ (ps : List Nat) {st : RunState V K},
    headsOK m st.solutions → st.solutions.getD lvl [] ≠ [] →
    headsOK m (stateOf (intervalLoop cfg oracle lvl ps st)).solutions ∧
    (stateOf (intervalLoop cfg oracle lvl ps st)).solutions.getD lvl [] ≠ [] := by
  intro ps
  induction ps with
  | nil => intro st h hne; exact ⟨h, hne⟩
  | cons p ps ih =>
    intro st h hne
    unfold intervalLoop
    have HP := processInterval_headsOK (m := m) cfg oracle lvl p h hne
    cases hp : processInterval cfg oracle lvl p st with
    | error e => rw [hp] at HP; exact HP
    | ok st' =>
      rw [hp] at HP
      exact ih HP.1 HP.2

theorem doLevel_headsOK {m : Nat} (cfg : Cfg V K) (oracle : Oracle V K)
    (lvl : Nat) {st : RunState V K} (h : headsOK m st.solutions) :
    headsOK m (stateOf (doLevel cfg oracle lvl st)).solutions := by
  unfold doLevel
  split
  · rename_i row src hrow hsrc
    dsimp only
    cases hp : pushAt lvl refPt
        { st with errors := st.errors.set (lvl - 1) (resizeRow row src.length) } with
    | error e =>
      have he := pushAt_err hp
      subst he
      exact h
    | ok st1 =>
      obtain ⟨hl, hs, -, -, -⟩ := pushAt_ok hp
      have hs' : st1.solutions
          = st.solutions.set lvl (st.solutions.getD lvl [] ++ [refPt]) := hs
      have hl' : lvl < st.solutions.length := hl
      have h1 : headsOK m st1.solutions := by
        rw [hs']
        exact headsOK_set_push h lvl refPt (Or.inl rfl)
      have hne1 : st1.solutions.getD lvl [] ≠ [] := by
        rw [hs', List.getD_eq_getElem?_getD, List.getElem?_set_self hl',
          Option.getD_some]
        simp
      have HIL := intervalLoop_headsOK (m := m) cfg oracle lvl
        (List.range (src.length - 1)) h1 hne1
      dsimp only
      cases hil : intervalLoop cfg oracle lvl (List.range (src.length - 1)) st1 with
      | error e => rw [hil] at HIL; exact HIL.1
      | ok st2 =>
        rw [hil] at HIL
        exact headsOK_append HIL.1 [[]] (by simp)
  · exact h

theorem doLevel_ok_head {m : Nat} (cfg : Cfg V K) (oracle : Oracle V K)
    {lvl : Nat} {st st' : RunState V K} (h : headsOK m st.solutions)
    (hlv : lvl ≤ m) (hok : doLevel cfg oracle lvl st = .ok st') :
    headsOK m st'.solutions ∧ (st'.solutions.getD lvl []).head? = some refPt := by
  unfold doLevel at hok
  split at hok
  · rename_i row src hrow hsrc
    dsimp only at hok
    cases hp : pushAt lvl refPt
        { st with errors := st.errors.set (lvl - 1) (resizeRow row src.length) } with
    | error e => rw [hp] at hok; cases hok
    | ok st1 =>
      rw [hp] at hok
      dsimp only at hok
      obtain ⟨hl, hs, -, -, -⟩ := pushAt_ok hp
      have hs' : st1.solutions
          = st.solutions.set lvl (st.solutions.getD lvl [] ++ [refPt]) := hs
      have hl' : lvl < st.solutions.length := hl
      have h1 : headsOK m st1.solutions := by
        rw [hs']
        exact headsOK_set_push h lvl refPt (Or.inl rfl)
      have hne1 : st1.solutions.getD lvl [] ≠ [] := by
        rw [hs', List.getD_eq_getElem?_getD, List.getElem?_set_self hl',
          Option.getD_some]
        simp
      have hhead1 : (st1.solutions.getD lvl []).head? = some refPt := by
        rw [hs', List.getD_eq_getElem?_getD, List.getElem?_set_self hl',
          Option.getD_some]
        cases hE : st.solutions.getD lvl [] with
        | nil => simp
        | cons a as =>
          rcases h lvl hlv with h0 | h0
          · rw [hE] at h0; cases h0
          · rw [hE] at h0
            simpa using h0
      have HIL := intervalLoop_headsOK (m := m) cfg oracle lvl
        (List.range (src.length - 1)) h1 hne1
      have HGR := intervalLoop_grows cfg oracle lvl (List.range (src.length - 1)) st1
      cases hil : intervalLoop cfg oracle lvl (List.range (src.length - 1)) st1 with
      | error e => rw [hil] at hok; cases hok
      | ok st2 =>
        rw [hil] at hok
        cases hok
        rw [hil] at HIL HGR
        have hhead2 : (st2.solutions.getD lvl []).head? = some refPt :=
          grows_head HGR hhead1
        have hlen2 : lvl < st2.solutions.length := by
          have e1 : st1.solutions.length = st.solutions.length := by
            rw [hs']; simp
          have e2 : st1.solutions.length ≤ st2.solutions.length := HGR.1
          omega
        constructor
        · exact headsOK_append HIL.1 [[]] (by simp)
        · dsimp only
          rw [List.getD_eq_getElem?_getD, List.getElem?_append_left hlen2]
          rw [List.getD_eq_getElem?_getD] at hhead2
          exact hhead2
  · cases hok

theorem levelLoop_headsOK {m : Nat} (cfg : Cfg V K) (oracle : Oracle V K) :
    ∀ (ls : List Nat) {st : RunState V K}, headsOK m st.solutions →
    headsOK m (stateOf (levelLoop cfg oracle ls st)).solutions := by
  intro ls
  induction ls with
  | nil => intro st h; exact h
  | cons l ls ih =>
    intro st h
    unfold levelLoop
    have HD := doLevel_headsOK (m := m) cfg oracle l h
    cases hd : doLevel cfg oracle l st with
    | error e => rw [hd] at HD; exact HD
    | ok st1 =>
      rw [hd] at HD
      exact ih HD

theorem levelLoop_ok_heads {m : Nat} (cfg : Cfg V K) (oracle : Oracle V K) :
    ∀ (ls : List Nat) {st st' : RunState V K},
    (∀ l ∈ ls, l ≤ m) → headsOK m st.solutions →
    levelLoop cfg oracle ls st = .ok st' →
    headsOK m st'.solutions ∧
    ∀ l ∈ ls, (st'.solutions.getD l []).head? = some refPt := by
  intro ls
  induction ls with
  | nil =>
    intro st st' _ h hok
    cases hok
    exact ⟨h, by intro l hl; cases hl⟩
  | cons l ls ih =>
    intro st st' hls h hok
    unfold levelLoop at hok
    cases hd : doLevel cfg oracle l st with
    | error e => rw [hd] at hok; cases hok
    | ok st1 =>
      rw [hd] at hok
      dsimp only at hok
      obtain ⟨h1, hhead⟩ := doLevel_ok_head (m := m) cfg oracle h
        (hls l (List.mem_cons_self l ls)) hd
      obtain ⟨h', hrest⟩ := ih (fun x hx => hls x (List.mem_cons_of_mem l hx)) h1 hok
      refine ⟨h', ?_⟩
      intro x hx
      rcases List.mem_cons.mp hx with hx | hx
      · subst hx
        have HGR := levelLoop_grows cfg oracle ls st1
        rw [hok] at HGR
        exact grows_head HGR hhead
      · exact hrest x hx

/-! ### Level 0 and the uniform stepping loop -/

theorem headsOK_initSt (cfg : Cfg V K) (m : Nat) :
    headsOK m (initSt cfg).solutions := by
  intro l _
  left
  rw [initSt, List.getD_eq_getElem?_getD, List.getElem?_replicate]
  split <;> rfl

theorem iterSteps_headsOK {m : Nat} (oracle : Oracle V K) (lvl : Nat) :
    ∀ (n : Nat) {st : RunState V K}, headsOK m st.solutions →
    st.solutions.getD lvl [] ≠ [] →
    headsOK m (stateOf (iterSteps oracle lvl n st)).solutions ∧
    (stateOf (iterSteps oracle lvl n st)).solutions.getD lvl [] ≠ [] := by
  intro n
  induction n with
  | zero => intro st h hne; exact ⟨h, hne⟩
  | succ n ih =>
    intro st h hne
    unfold iterSteps
    have HT := tryStep_headsOK (m := m) oracle lvl h hne
    cases ht : tryStep oracle lvl st with
    | error e => rw [ht] at HT; exact HT
    | ok pr =>
      rw [ht] at HT
      obtain ⟨pt, st1⟩ := pr
      exact ih HT.1 HT.2

theorem iterSteps_refIdx (oracle : Oracle V K) (lvl : Nat) :
    ∀ (n : Nat) (st : RunState V K),
    (stateOf (iterSteps oracle lvl n st)).refIdx = st.refIdx ∧
    (stateOf (iterSteps oracle lvl n st)).errors = st.errors := by
  intro n
  induction n with
  | zero => intro st; exact ⟨rfl, rfl⟩
  | succ n ih =>
    intro st
    unfold iterSteps
    cases ht : tryStep oracle lvl st with
    | error e =>
      obtain ⟨-, he, hr⟩ := tryStep_err ht
      exact ⟨hr, he⟩
    | ok pr =>
      obtain ⟨pt, st1⟩ := pr
      obtain ⟨-, -, -, he, hr, -⟩ := tryStep_ok ht
      obtain ⟨ihr, ihe⟩ := ih st1
      exact ⟨by rw [ihr, hr], by rw [ihe, he]⟩

/-- Successful uniform stepping: `n` converged steps append exactly `n`
points to level `lvl` and touch nothing else. -/
theorem iterSteps_ok (oracle : Oracle V K) (lvl : Nat) :
    ∀ (n : Nat) (st : RunState V K), lvl < st.solutions.length →
    (∀ k, k < n → (oracle (st.stepCount + k)).isSome = true) →
    ∃ st', iterSteps oracle lvl n st = .ok st' ∧
      st'.solutions.length = st.solutions.length ∧
      (st'.solutions.getD lvl []).length = (st.solutions.getD lvl []).length + n ∧
      (∀ l, l ≠ lvl → st'.solutions.getD l [] = st.solutions.getD l []) ∧
      st'.errors = st.errors ∧ st'.refIdx = st.refIdx := by
  intro n
  induction n with
  | zero =>
    intro st _ _
    exact ⟨st, rfl, rfl, rfl, fun l _ => rfl, rfl, rfl⟩
  | succ n ih =>
    intro st hlen hconv
    have h0 : (oracle st.stepCount).isSome = true := by
      simpa using hconv 0 (Nat.succ_pos n)
    cases ho : oracle st.stepCount with
    | none => rw [ho] at h0; cases h0
    | some pt =>
      have hstep : tryStep oracle lvl st
          = .ok (pt, { st with
              stepCount := st.stepCount + 1,
              solutions := st.solutions.set lvl (st.solutions.getD lvl [] ++ [pt]) }) := by
        unfold tryStep
        rw [ho]
        dsimp only
        rw [pushAt, if_pos hlen]
      set st1 : RunState V K := { st with
        stepCount := st.stepCount + 1,
        solutions := st.solutions.set lvl (st.solutions.getD lvl [] ++ [pt]) } with hst1
      have hlen1 : lvl < st1.solutions.length := by
        rw [hst1]; simpa using hlen
      have hconv1 : ∀ k, k < n → (oracle (st1.stepCount + k)).isSome = true := by
        intro k hk
        have := hconv (k + 1) (Nat.succ_lt_succ hk)
        rw [hst1]
        simpa [Nat.add_assoc, Nat.add_comm 1 k] using this
      obtain ⟨st', hrun, hL, hD, hO, hE, hR⟩ := ih st1 hlen1 hconv1
      refine ⟨st', ?_, ?_, ?_, ?_, ?_, ?_⟩
      · unfold iterSteps
        rw [hstep]
        exact hrun
      · rw [hL, hst1]; simp
      · rw [hD, hst1]
        dsimp only
        rw [List.getD_eq_getElem?_getD, List.getElem?_set_self hlen,
          Option.getD_some]
        simp [Nat.add_assoc, Nat.add_comm 1 n]
      · intro l hll
        rw [hO l hll, hst1]
        dsimp only
        simp only [List.getD_eq_getElem?_getD,
          List.getElem?_set_ne (fun hq => hll hq.symm)]
      · rw [hE, hst1]
      · rw [hR, hst1]

theorem level0_headsOK (cfg : Cfg V K) (oracle : Oracle V K) :
    headsOK cfg.maxLevel (stateOf (level0 cfg oracle)).solutions := by
  have h0 : (0 : Nat) < (initSt cfg).solutions.length := by simp [initSt]
  have hOK : headsOK cfg.maxLevel
      (({ initSt cfg with
        solutions := (initSt cfg).solutions.set 0
          ((initSt cfg).solutions.getD 0 [] ++ [refPt]) } : RunState V K)).solutions :=
    headsOK_set_push (headsOK_initSt cfg cfg.maxLevel) 0 refPt (Or.inl rfl)
  have hne : (({ initSt cfg with
      solutions := (initSt cfg).solutions.set 0
        ((initSt cfg).solutions.getD 0 [] ++ [refPt]) } :
      RunState V K)).solutions.getD 0 [] ≠ [] := by
    show ((initSt cfg).solutions.set 0
      ((initSt cfg).solutions.getD 0 [] ++ [refPt])).getD 0 [] ≠ []
    rw [List.getD_eq_getElem?_getD, List.getElem?_set_self h0, Option.getD_some]
    simp
  unfold level0
  rw [pushAt, if_pos h0]
  dsimp only
  exact (iterSteps_headsOK (m := cfg.maxLevel) oracle 0 cfg.step0 hOK hne).1

theorem level0_ok_parts {cfg : Cfg V K} {oracle : Oracle V K} {st : RunState V K}
    (h : level0 cfg oracle = .ok st) :
    headsOK cfg.maxLevel st.solutions ∧
    (st.solutions.getD 0 []).head? = some refPt ∧
    st.refIdx = [] := by
  have h0 : (0 : Nat) < (initSt cfg).solutions.length := by simp [initSt]
  have hOK : headsOK cfg.maxLevel
      (({ initSt cfg with
        solutions := (initSt cfg).solutions.set 0
          ((initSt cfg).solutions.getD 0 [] ++ [refPt]) } : RunState V K)).solutions :=
    headsOK_set_push (headsOK_initSt cfg cfg.maxLevel) 0 refPt (Or.inl rfl)
  have hne : (({ initSt cfg with
      solutions := (initSt cfg).solutions.set 0
        ((initSt cfg).solutions.getD 0 [] ++ [refPt]) } :
      RunState V K)).solutions.getD 0 [] ≠ [] := by
    show ((initSt cfg).solutions.set 0
      ((initSt cfg).solutions.getD 0 [] ++ [refPt])).getD 0 [] ≠ []
    rw [List.getD_eq_getElem?_getD, List.getElem?_set_self h0, Option.getD_some]
    simp
  have hD0 : (initSt cfg).solutions.getD 0 [] = [] := by
    rw [initSt]
    dsimp only
    rw [List.getD_eq_getElem?_getD, List.getElem?_replicate, if_pos (Nat.succ_pos _)]
    rfl
  have hhead : (((initSt cfg).solutions.set 0
      ((initSt cfg).solutions.getD 0 [] ++ [refPt])).getD 0 []).head? = some refPt := by
    rw [List.getD_eq_getElem?_getD, List.getElem?_set_self h0, Option.getD_some,
      hD0]
    rfl
  unfold level0 at h
  rw [pushAt, if_pos h0] at h
  dsimp only at h
  refine ⟨?_, ?_, ?_⟩
  · have HH := (iterSteps_headsOK (m := cfg.maxLevel) oracle 0 cfg.step0 hOK hne).1
    rw [h] at HH
    exact HH
  · have HGR := iterSteps_grows oracle 0 cfg.step0
      { initSt cfg with
        solutions := (initSt cfg).solutions.set 0 ((initSt cfg).solutions.getD 0 [] ++ [refPt]) }
    rw [h] at HGR
    exact grows_head HGR hhead
  · have HR := (iterSteps_refIdx oracle 0 cfg.step0
      { initSt cfg with
        solutions := (initSt cfg).solutions.set 0 ((initSt cfg).solutions.getD 0 [] ++ [refPt]) }).1
    rw [h] at HR
    exact HR

theorem drainQueue_headsAll {m : Nat} (cfg : Cfg V K) (oracle : Oracle V K)
    (fuel : Nat) {st : RunState V K} (h : headsAll m st.solutions) :
    headsAll m (stateOf (drainQueue cfg oracle fuel st).1).solutions :=
  grows_headsAll h (drainQueue_grows cfg oracle fuel st)

theorem afterLevels_headsOK (cfg : Cfg V K) (oracle : Oracle V K) :
    headsOK cfg.maxLevel (stateOf (afterLevels cfg oracle)).solutions := by
  unfold afterLevels
  cases hl : level0 cfg oracle with
  | error e =>
    have hh := level0_headsOK cfg oracle
    rw [hl] at hh
    exact hh
  | ok st =>
    have hh := level0_headsOK cfg oracle
    rw [hl] at hh
    exact levelLoop_headsOK cfg oracle _ hh

theorem afterLevels_ok_headsAll {cfg : Cfg V K} {oracle : Oracle V K}
    {st : RunState V K} (h : afterLevels cfg oracle = .ok st) :
    headsAll cfg.maxLevel st.solutions := by
  unfold afterLevels at h
  cases hl : level0 cfg oracle with
  | error e => rw [hl] at h; cases h
  | ok st0 =>
    rw [hl] at h
    dsimp only at h
    obtain ⟨hOK0, hhead0, -⟩ := level0_ok_parts hl
    have hmem : ∀ l ∈ List.range' 1 cfg.maxLevel, l ≤ cfg.maxLevel := by
      intro l hml
      obtain ⟨i, hi, hvl⟩ := List.mem_range'.mp hml
      omega
    obtain ⟨hOK, hheads⟩ :=
      levelLoop_ok_heads (m := cfg.maxLevel) cfg oracle _ hmem hOK0 h
    intro l hlmx
    rcases Nat.eq_zero_or_pos l with hz | hpos
    · subst hz
      have HGR := levelLoop_grows cfg oracle (List.range' 1 cfg.maxLevel) st0
      rw [h] at HGR
      exact grows_head HGR hhead0
    · exact hheads l (List.mem_range'.mpr ⟨l - 1, by omega, by omega⟩)

/-! ### The claims -/

/-- Claim C1 (code bug): the claim says a processed refinement task
`(targetLevel, sourceLevel, sourceIndex)` compares against the coarse
endpoint at `(sourceLevel, sourceIndex+1)` and stores the error at
`errors[sourceLevel][sourceIndex]`.  In run A the first popped task is
`(2, 0, 0)`; the queue loop (line 534) instead reads the coarse endpoint
from `solutions[targetLevel][sourceIndex+1] = (1/4, 1/4)` and writes
`46/25` into `errors[targetLevel][sourceIndex] = errors[2][0]`, while the
cell `errors[0][0]` demanded by the claim keeps its level-loop value `2/25`,
not the value `146/25` the claimed formula (coarse endpoint
`(1/2, 1/2)` at `(0, 1)`, `dL_target = dL/2^2`) yields. -/
theorem claim1_queue_eval :
    stMidA.refIdx = [⟨2, 0, 0⟩, ⟨2, 1, 1⟩] ∧
    faultOf (runAll cfgA oracleA) = none ∧
    readPt stMidA 0 1 = some ⟨1/2, 1/2⟩ ∧
    readPt stMidA 2 1 = some ⟨1/4, 1/4⟩ ∧
    ((stateOf (runAll cfgA oracleA)).errors.getD 2 []).getD 0 0 = 46/25 ∧
    computeError (fun q => |q|) (1 : ℚ) ⟨1/4, 1/4⟩ (29/200) (1/8)
      ((1/2) / 2 ^ (2 : Nat)) = 46/25 ∧
    ((stateOf (runAll cfgA oracleA)).errors.getD 0 []).getD 0 0 = 2/25 ∧
    computeError (fun q => |q|) (1 : ℚ) ⟨1/2, 1/2⟩ (29/200) (1/8)
      ((1/2) / 2 ^ (2 : Nat)) = 146/25 ∧
    (2/25 : ℚ) ≠ 146/25 := by
  with_unfolding_all decide

/-- Claim C2 (code bug): the claim says a finished task appends exactly two
points to its `targetLevel` and none to any other level.  In run A the
finished task `(2, 0, 0)` (targetLevel 2) leaves level 2 at its previous
5 points and appends three points (the start point of line 507 plus the two
step results) to level 3 = targetLevel+1, growing it from 9 to 12. -/
theorem claim2_queue_eval :
    faultOf (processTask cfgA oracleA ⟨2, 0, 0⟩ stPopA) = none ∧
    (stPopA.solutions.getD 2 []).length = 5 ∧
    (stPopA.solutions.getD 3 []).length = 9 ∧
    ((stateOf (processTask cfgA oracleA ⟨2, 0, 0⟩ stPopA)).solutions.getD 2 []).length = 5 ∧
    ((stateOf (processTask cfgA oracleA ⟨2, 0, 0⟩ stPopA)).solutions.getD 3 []).length = 12 := by
  with_unfolding_all decide

/-- Claim C3, counterexample: the popped task `(2, 0, 0)` of run A stores an
error `46/25 > ptol = 1/20` yet enqueues nothing — its `refIdx` is exactly
the queue it was popped from (the re-enqueue of lines 539-540 is commented
out), refuting "enqueues exactly two new tasks". -/
theorem claim3_cex :
    faultOf (processTask cfgA oracleA ⟨2, 0, 0⟩ stPopA) = none ∧
    ((stateOf (processTask cfgA oracleA ⟨2, 0, 0⟩ stPopA)).errors.getD 2 []).getD 0 0 = 46/25 ∧
    cfgA.ptol < 46/25 ∧
    (stateOf (processTask cfgA oracleA ⟨2, 0, 0⟩ stPopA)).refIdx = stPopA.refIdx := by
  with_unfolding_all decide

/-- Claim C3, amended: an interval processed inline by the level loop whose
stored error exceeds `ptol` enqueues exactly the two tasks
`(lvl+1, lvl-1, p)` and `(lvl+1, lvl, <index of the new midpoint>)`, and
enqueues nothing otherwise; a task popped from the refinement queue never
enqueues anything, whatever its error. -/
theorem claim3_amended (cfg : Cfg V K) (oracle : Oracle V K) (lvl p : Nat) :
    (∀ st st' : RunState V K, processInterval cfg oracle lvl p st = .ok st' →
      (cfg.ptol < (st'.errors.getD (lvl - 1) []).getD p 0 →
        st'.refIdx = st.refIdx ++
          [⟨lvl + 1, lvl - 1, p⟩,
           ⟨lvl + 1, lvl, (st'.solutions.getD lvl []).length - 2⟩]) ∧
      (¬ cfg.ptol < (st'.errors.getD (lvl - 1) []).getD p 0 →
        st'.refIdx = st.refIdx)) ∧
    (∀ (t : RefTask) (st st' : RunState V K),
      processTask cfg oracle t st = .ok st' → st'.refIdx = st.refIdx) :=
  ⟨fun _ _ h => processInterval_ok_parts h,
   fun _ _ _ h => processTask_ok_parts h⟩

/-- Witness for the amended C3: a concrete flagged interval enqueues the two
tasks, and the concrete queue task of run A enqueues nothing. -/
theorem claim3_amended_w :
    (stateOf (processInterval cfgI oracleI 1 0 stI)).refIdx
      = stI.refIdx ++
        [⟨2, 0, 0⟩,
         ⟨2, 1, ((stateOf (processInterval cfgI oracleI 1 0 stI)).solutions.getD 1 []).length - 2⟩] ∧
    (stateOf (processTask cfgA oracleA ⟨2, 0, 0⟩ stPopA)).refIdx = stPopA.refIdx := by
  constructor
  · exact ((claim3_amended cfgI oracleI 1 0).1 stI
      (stateOf (processInterval cfgI oracleI 1 0 stI))
      (by with_unfolding_all rfl)).1 (by with_unfolding_all decide)
  · exact (claim3_amended cfgA oracleA 0 0).2 ⟨2, 0, 0⟩ stPopA
      (stateOf (processTask cfgA oracleA ⟨2, 0, 0⟩ stPopA))
      (by with_unfolding_all rfl)

/-- Claim C4 (code bug): the claim says task processing never reads or
writes out of bounds.  In run B the queue holds `[(3,1,1), (3,2,3)]`; the
first popped task pushes onto the 5-level store's level 4 and then performs
`solutions[4].at(solutions.size()-1) = solutions[4].at(4)` (line 530) on a
level holding 2 points, so the run aborts with an out-of-bounds fault. -/
theorem claim4_oob_eval :
    faultOf (runAll cfgB oracleB) = some Fault.outOfBounds ∧
    (stateOf (afterLevels cfgB oracleB)).refIdx = [⟨3, 1, 1⟩, ⟨3, 2, 3⟩] ∧
    (stateOf (runAll cfgB oracleB)).solutions.length = 5 ∧
    ((stateOf (runAll cfgB oracleB)).solutions.getD 4 []).length = 2 := by
  with_unfolding_all decide

/-- Claim C5, counterexample: in run B, level 4 is first populated by the
popped task `(3, 1, 1)`, whose start point `(1/2, 1/2)` — not the reference
point `(0, 0)` — becomes the level's point 0. -/
theorem claim5_cex :
    ((stateOf (runAll cfgB oracleB)).solutions.getD 4 []).head? = some ⟨1/2, 1/2⟩ ∧
    (⟨1/2, 1/2⟩ : SolutionPoint ℚ ℚ) ≠ refPt := by
  with_unfolding_all decide

/-- Claim C5, amended: every level `l ≤ maxLevel` — the levels the
orchestrator itself populates — is, at the end of the run (also a faulted
one), either still unpopulated or headed by the reference point `(0, 0)`;
levels beyond `maxLevel`, populated by popped refinement tasks, may instead
be headed by the task's start point. -/
theorem claim5_amended (cfg : Cfg V K) (oracle : Oracle V K) (l : Nat)
    (hl : l ≤ cfg.maxLevel) :
    (stateOf (runAll cfg oracle)).solutions.getD l [] = [] ∨
    ((stateOf (runAll cfg oracle)).solutions.getD l []).head? = some refPt := by
  unfold runAll
  cases ha : afterLevels cfg oracle with
  | error e =>
    have hh := afterLevels_headsOK cfg oracle
    rw [ha] at hh
    exact hh l hl
  | ok st =>
    have hA := afterLevels_ok_headsAll ha
    have hD := drainQueue_headsAll cfg oracle st.refIdx.length hA
    right
    exact hD l hl

/-- Witness for the amended C5: in the completed run A, level 3 is headed by
the reference point. -/
theorem claim5_amended_w :
    (stateOf (runAll cfgA oracleA)).solutions.getD 3 [] = [] ∨
    ((stateOf (runAll cfgA oracleA)).solutions.getD 3 []).head? = some refPt :=
  claim5_amended cfgA oracleA 3 (by decide)

/-- Claim C6 (confirmed): when a `step()` call does not converge, both step
primitives abort with the `diverged` fault carrying the state unchanged —
the run stops before using the returned state and the solution store gains
no point from that step. -/
theorem claim6_diverge_aborts (oracle : Oracle V K) (lvl : Nat)
    (st : RunState V K) (h : oracle st.stepCount = none) :
    tryStep oracle lvl st = .error (.diverged, st) ∧
    qStep oracle lvl st = .error (.diverged, st) ∧
    (stateOf2 (tryStep oracle lvl st)).solutions = st.solutions := by
  refine ⟨?_, ?_, ?_⟩
  · unfold tryStep; rw [h]
  · unfold qStep; rw [h]
  · unfold tryStep; rw [h]; rfl

/-- Witness for C6 at a concrete diverging oracle. -/
theorem claim6_w :
    tryStep (fun _ => (none : Option (SolutionPoint ℚ ℚ))) 0 (initSt cfgA)
      = .error (.diverged, initSt cfgA) ∧
    qStep (fun _ => (none : Option (SolutionPoint ℚ ℚ))) 0 (initSt cfgA)
      = .error (.diverged, initSt cfgA) ∧
    (stateOf2 (tryStep (fun _ => (none : Option (SolutionPoint ℚ ℚ))) 0
      (initSt cfgA))).solutions = (initSt cfgA).solutions :=
  claim6_diverge_aborts (fun _ => none) 0 (initSt cfgA) rfl

/-- Claim C7 (confirmed): each phase of the run only appends to the point
list of every level — whatever was stored at `(level, index)` before the
phase is still there, unchanged, afterwards, also when the phase faults. -/
theorem claim7_append_only (cfg : Cfg V K) (oracle : Oracle V K)
    (st : RunState V K) (t : RefTask) (fuel : Nat) (lvls ps : List Nat)
    (lvl l : Nat) :
    (∃ u, (stateOf (processTask cfg oracle t st)).solutions.getD l []
        = st.solutions.getD l [] ++ u) ∧
    (∃ u, (stateOf (drainQueue cfg oracle fuel st).1).solutions.getD l []
        = st.solutions.getD l [] ++ u) ∧
    (∃ u, (stateOf (levelLoop cfg oracle lvls st)).solutions.getD l []
        = st.solutions.getD l [] ++ u) ∧
    (∃ u, (stateOf (intervalLoop cfg oracle lvl ps st)).solutions.getD l []
        = st.solutions.getD l [] ++ u) :=
  ⟨(processTask_grows cfg oracle t st).2 l,
   (drainQueue_grows cfg oracle fuel st).2 l,
   (levelLoop_grows cfg oracle lvls st).2 l,
   (intervalLoop_grows cfg oracle lvl ps st).2 l⟩

/-- Claim C8 (confirmed): with `step0 = 10` and `maxLevel = 0`, when all ten
steps converge the run ends with a single level of exactly 11 points
(reference plus ten steps) and no level above 0 exists or holds a point. -/
theorem claim8_scenarioA (normV : V → K) (Force : V) (dL ptol : K)
    (oracle : Oracle V K)
    (h : ∀ k, k < 10 → (oracle k).isSome = true) :
    ∃ st, runAll ⟨normV, Force, dL, ptol, 10, 0⟩ oracle = .ok st ∧
      st.solutions.length = 1 ∧
      (st.solutions.getD 0 []).length = 11 ∧
      ∀ l, 1 ≤ l → st.solutions.getD l [] = [] := by
  set cfg : Cfg V K := ⟨normV, Force, dL, ptol, 10, 0⟩ with hcfg
  have h0 : (0 : Nat) < (initSt cfg).solutions.length := by simp [initSt]
  set stP : RunState V K := { initSt cfg with
    solutions := (initSt cfg).solutions.set 0
      ((initSt cfg).solutions.getD 0 [] ++ [refPt]) } with hstP
  have hP : pushAt 0 refPt (initSt cfg) = .ok stP := by
    rw [pushAt, if_pos h0]
  have hlen : (0 : Nat) < stP.solutions.length := by
    rw [hstP]; simpa using h0
  have hconv : ∀ k, k < 10 → (oracle (stP.stepCount + k)).isSome = true := by
    intro k hk
    rw [show stP.stepCount = 0 from rfl]
    simpa using h k hk
  obtain ⟨st', hrun, hL, hD, hO, hE, hR⟩ := iterSteps_ok oracle 0 10 stP hlen hconv
  have hA : afterLevels cfg oracle = .ok st' := by
    unfold afterLevels level0
    rw [hP]
    dsimp only
    rw [show iterSteps oracle 0 cfg.step0 stP = .ok st' from hrun]
    rfl
  have hRef : st'.refIdx = [] := by rw [hR]; rfl
  refine ⟨st', ?_, ?_, ?_, ?_⟩
  · unfold runAll
    rw [hA]
    dsimp only
    rw [hRef]
    rfl
  · rw [hL, hstP]
    simp [initSt]
  · rw [hD, hstP]
    dsimp only
    rw [List.getD_eq_getElem?_getD, List.getElem?_set_self h0, Option.getD_some]
    have : (initSt cfg).solutions.getD 0 [] = [] := by
      rw [initSt]
      dsimp only
      rw [List.getD_eq_getElem?_getD, List.getElem?_replicate,
        if_pos (Nat.succ_pos _)]
      rfl
    rw [this]
    rfl
  · intro l hl1
    rw [hO l (by omega), hstP]
    dsimp only
    rw [List.getD_eq_getElem?_getD, List.getElem?_set_ne (by omega)]
    rw [initSt]
    dsimp only
    rw [List.getElem?_eq_none (by simpa using hl1)]
    rfl

/-- Witness for C8: the straight-path oracle converges at every step. -/
theorem claim8_w :
    ∃ st, runAll (⟨fun q => |q|, 1, 1/2, 1/20, 10, 0⟩ : Cfg ℚ ℚ)
        (fun k => some ⟨(k : ℚ), (k : ℚ)⟩) = .ok st ∧
      st.solutions.length = 1 ∧
      (st.solutions.getD 0 []).length = 11 ∧
      ∀ l, 1 ≤ l → st.solutions.getD l [] = [] :=
  claim8_scenarioA (fun q => |q|) 1 (1/2) (1/20)
    (fun k => some ⟨(k : ℚ), (k : ℚ)⟩) (fun _ _ => rfl)

/-- Claim C9, counterexample: with a zero reference force the error is zero
although the load factors differ (`λ_c = 1 ≠ 0 = λ_f`), refuting "zero iff
the two points coincide" as universally quantified over the reference
force; the target arc length `1` is positive as the claim requires. -/
theorem claim9_cex :
    computeError (V := ℚ) (K := ℚ) (fun q => |q|) 0 ⟨0, 1⟩ 0 0 1 = 0 ∧
    (0 : ℚ) < 1 ∧
    ¬(((0 : ℚ) = 0) ∧ ((1 : ℚ) = 0)) := by
  refine ⟨?_, by norm_num, by norm_num⟩
  with_unfolding_all decide

/-- Claim C9, amended: for a norm (nonnegative, faithful) and a positive
target arc length, the error is non-negative for *all* inputs, and it
vanishes whenever the coarse endpoint and the fine endpoint coincide in
both state and load factor; conversely, when the reference force norm is
nonzero, a vanishing error forces the two endpoints to coincide. -/
theorem claim9_amended {W : Type} [AddGroup W] (normW : W → K) (Force : W)
    (hnn : ∀ v, 0 ≤ normW v) (hzero : ∀ v, normW v = 0 ↔ v = 0)
    (coarse : SolutionPoint W K) (Uf : W) (lamf : K)
    (dLi : K) (hdL : 0 < dLi) :
    0 ≤ computeError normW Force coarse Uf lamf dLi ∧
    (coarse.U = Uf ∧ coarse.lam = lamf →
      computeError normW Force coarse Uf lamf dLi = 0) ∧
    (0 < normW Force → computeError normW Force coarse Uf lamf dLi = 0 →
      coarse.U = Uf ∧ coarse.lam = lamf) := by
  refine ⟨?_, ?_, ?_⟩
  · exact div_nonneg
      (add_nonneg (mul_nonneg (abs_nonneg _) (hnn _)) (hnn _)) hdL.le
  · rintro ⟨hU, hlam⟩
    unfold computeError
    rw [hU, hlam, sub_self, sub_self, abs_zero, zero_mul, zero_add,
      (hzero 0).mpr rfl, zero_div]
  · intro hF h0
    unfold computeError at h0
    rw [div_eq_zero_iff] at h0
    rcases h0 with hsum | hzero'
    · have h2 := (add_eq_zero_iff_of_nonneg
        (mul_nonneg (abs_nonneg _) (hnn _)) (hnn _)).mp hsum
      refine ⟨sub_eq_zero.mp ((hzero _).mp h2.2), ?_⟩
      rcases mul_eq_zero.mp h2.1 with hA | hB
      · exact sub_eq_zero.mp (abs_eq_zero.mp hA)
      · exact absurd hB (ne_of_gt hF)
    · exact absurd hzero' (ne_of_gt hdL)

/-- Witness for the amended C9 with the absolute value on `ℚ`, unit force. -/
theorem claim9_w :
    0 ≤ computeError (V := ℚ) (K := ℚ) (fun q => |q|) 1 ⟨0, 0⟩ 0 0 1 ∧
    ((0 : ℚ) = 0 ∧ (0 : ℚ) = 0 →
      computeError (V := ℚ) (K := ℚ) (fun q => |q|) 1 ⟨0, 0⟩ 0 0 1 = 0) ∧
    (0 < |(1 : ℚ)| →
      computeError (V := ℚ) (K := ℚ) (fun q => |q|) 1 ⟨0, 0⟩ 0 0 1 = 0 →
      (0 : ℚ) = 0 ∧ (0 : ℚ) = 0) :=
  claim9_amended (W := ℚ) (fun q => |q|) 1 (fun v => abs_nonneg v)
    (fun v => abs_eq_zero) ⟨0, 0⟩ 0 0 1 (by norm_num)

/-- Claim C10 (confirmed): the queue loop pops one task per iteration and a
processed task never enqueues (the re-enqueue is commented out), so when no
task faults the loop performs exactly as many iterations as the queue
initially held and ends with the queue empty. -/
theorem claim10_queue_drain (cfg : Cfg V K) (oracle : Oracle V K) :
    ∀ (n : Nat) (st st' : RunState V K), st.refIdx.length = n →
    (drainQueue cfg oracle n st).1 = .ok st' →
    (drainQueue cfg oracle n st).2 = n ∧ st'.refIdx = [] := by
  intro n
  induction n with
  | zero =>
    intro st st' hn hok
    have hnil : st.refIdx = [] := List.length_eq_zero.mp hn
    unfold drainQueue at hok ⊢
    cases hok
    exact ⟨rfl, hnil⟩
  | succ n ih =>
    intro st st' hn hok
    cases hr : st.refIdx with
    | nil => rw [hr] at hn; cases hn
    | cons t rest =>
      have hrest : rest.length = n := by
        rw [hr] at hn; simpa using hn
      unfold drainQueue at hok ⊢
      rw [hr] at hok ⊢
      dsimp only at hok ⊢
      cases hp : processTask cfg oracle t { st with refIdx := rest } with
      | error e =>
        rw [hp] at hok
        dsimp only at hok
        cases hok
      | ok st1 =>
        rw [hp] at hok
        dsimp only at hok ⊢
        have h1 : st1.refIdx = rest := by
          rw [processTask_ok_parts hp]
        have hlen1 : st1.refIdx.length = n := by rw [h1]; exact hrest
        obtain ⟨hc, he⟩ := ih st1 st' hlen1 hok
        exact ⟨by rw [hc], he⟩

/-- Witness for C10 at run A's queue: two tasks, two iterations, empty
queue afterwards. -/
theorem claim10_w :
    (drainQueue cfgA oracleA stMidA.refIdx.length stMidA).2
      = stMidA.refIdx.length ∧
    (stateOf (drainQueue cfgA oracleA stMidA.refIdx.length stMidA).1).refIdx = [] :=
  claim10_queue_drain cfgA oracleA stMidA.refIdx.length stMidA
    (stateOf (drainQueue cfgA oracleA stMidA.refIdx.length stMidA).1) rfl
    (by with_unfolding_all rfl)

end KLShellRoof
